import Mathlib

/-!
Verification development for the resume-tailor repository.

Shallow embedding of the core components:
* `src/tools/pdf_to_yaml.py` — the heuristic reverse parser (extracted text → Document),
* `src/app/render_text.py`  — the canonical text renderer,
* `src/app/diff.py`         — the structural diff engine,
* `src/app/score.py`        — clamping of the scoring-service response.

Python strings are modelled at the character-list level (`String` in Lean); the
whitespace set is the ASCII part of Python's `\s` class.  Python dicts whose
keys are fixed field names become structures; `dict.get(k, default)` on a
possibly-missing key becomes a field with that default.  Code that can raise
(`lines[0]` on an empty list) returns `Option`.
-/

set_option autoImplicit false

namespace ResumeTailor

/-! ### Python string primitives -/

/-- ASCII part of Python's whitespace class `\s` (space, tab, newline,
carriage return, vertical tab, form feed). -/
def pyIsSpace (c : Char) : Bool :=
  c = ' ' || c = '\t' || c = '\n' || c = '\r' || c = '\x0b' || c = '\x0c'

/-- Drop characters satisfying `p` from both ends of a character list. -/
def stripEnds (p : Char → Bool) (l : List Char) : List Char :=
  ((l.dropWhile p).reverse.dropWhile p).reverse

/-- Python `str.strip()` (whitespace at both ends). -/
def pyStrip (s : String) : String := ⟨stripEnds pyIsSpace s.data⟩

/-- Python `str.rstrip()`. -/
def pyRStrip (s : String) : String := ⟨(s.data.reverse.dropWhile pyIsSpace).reverse⟩

/-- Python `str.strip(chars)` for an explicit character set. -/
def pyStripChars (cs : List Char) (s : String) : String :=
  ⟨stripEnds (fun c => cs.contains c) s.data⟩

/-- Python `re.sub(r"\s+", " ", ·)` on a character list: every maximal
whitespace run becomes a single space. -/
def collapseWS (l : List Char) : List Char :=
  l.foldr
    (fun c acc =>
      if pyIsSpace c then
        match acc with
        | ' ' :: _ => acc
        | _ => ' ' :: acc
      else c :: acc)
    []

/-- `re.sub(r"\s+", " ", s)` on strings. -/
def collapseStr (s : String) : String := ⟨collapseWS s.data⟩

/-- Python `str.upper()` (ASCII). -/
def pyUpper (s : String) : String := ⟨s.data.map Char.toUpper⟩

/-- Python `str.lower()` (ASCII). -/
def pyLower (s : String) : String := ⟨s.data.map Char.toLower⟩

/-- Helper for `str.title()`: the Boolean records whether the previous
character was a letter. -/
def titleChars : Bool → List Char → List Char
  | _, [] => []
  | prev, c :: rest =>
    if c.isAlpha then (if prev then c.toLower else c.toUpper) :: titleChars true rest
    else c :: titleChars false rest

/-- Python `str.title()` (ASCII): first letter of every letter-run upper-cased,
the rest lower-cased. -/
def pyTitle (s : String) : String := ⟨titleChars false s.data⟩

/-- Contiguous-sublist test on character lists (kernel-reducible). -/
def isSubList (n : List Char) : List Char → Bool
  | [] => n.isEmpty
  | c :: rest => n.isPrefixOf (c :: rest) || isSubList n rest

/-- Python `needle in hay` substring test. -/
def pyIn (needle hay : String) : Bool := isSubList needle.data hay.data

/-- `str.startswith(pre)`. -/
def strStarts (s pre : String) : Bool := pre.data.isPrefixOf s.data

/-- Join a list of strings with a separator (kernel-reducible
`sep.join`-style helper). -/
def joinSep (sep : String) (l : List String) : String :=
  ⟨List.intercalate sep.data (l.map String.data)⟩

/-- First `n` characters of a string. -/
def strTake (s : String) (n : Nat) : String := ⟨s.data.take n⟩

/-- All but the first `n` characters of a string. -/
def strDrop (s : String) (n : Nat) : String := ⟨s.data.drop n⟩

/-- Split a character list at every occurrence of the character `sep`. -/
def splitCharAux (sep : Char) : List Char → List Char → List String
  | [], cur => [⟨cur⟩]
  | c :: rest, cur =>
    if c = sep then String.mk cur :: splitCharAux sep rest []
    else splitCharAux sep rest (cur ++ [c])

/-- Python `s.split(sep)` for a one-character separator (always at least one
part). -/
def splitChar (sep : Char) (s : String) : List String := splitCharAux sep s.data []

/-- Helper for `str.splitlines()`: split on `\n`, `\r\n` and `\r`; a trailing
line terminator produces no extra empty line. -/
def splitLinesAux : List Char → List Char → List String
  | [], cur => if cur.isEmpty then [] else [⟨cur⟩]
  | '\r' :: '\n' :: rest, cur => String.mk cur :: splitLinesAux rest []
  | '\n' :: rest, cur => String.mk cur :: splitLinesAux rest []
  | '\r' :: rest, cur => String.mk cur :: splitLinesAux rest []
  | c :: rest, cur => splitLinesAux rest (cur ++ [c])

/-- Python `str.splitlines()` restricted to the ASCII line terminators. -/
def pySplitlines (s : String) : List String := splitLinesAux s.data []

/-! ### Data model (`Document`, `Section`, `Job`)

In the Python source these are plain dicts read with `.get(key, default)`;
fields that a given section kind does not use default to `[]` / `""`. -/

structure Contact where
  location : String := ""
  email : String := ""
  linkedin : String := ""
deriving DecidableEq

structure Job where
  role : String := ""
  company : String := ""
  location : String := ""
  dates : String := ""
  bullets : List String := []
  tech_stack : String := ""
deriving DecidableEq

structure CCBlock where
  label : String := ""
  text : String := ""
deriving DecidableEq

structure Sec where
  title : String := ""
  type : String := ""
  items : List String := []
  blocks : List CCBlock := []
  jobs : List Job := []
  paragraphs : List String := []
deriving DecidableEq

structure Document where
  name : String := ""
  contact : Contact := {}
  sections : List Sec := []
deriving DecidableEq

/-! ### Reverse parser: `src/tools/pdf_to_yaml.py` -/

/-- The fixed vocabulary `SECTION_TITLES` (pdf_to_yaml.py lines 21-27). -/
def SECTION_TITLES : List String :=
  ["SUMMARY", "CORE COMPETENCIES", "EDUCATION", "SELECTED ACHIEVEMENTS",
   "PROFESSIONAL EXPERIENCE"]

/-- `normalize_lines` (lines 40-44): split into lines, strip, keep non-blank
lines, collapse internal whitespace runs. -/
def normalizeLines (text : String) : List String :=
  let ls := (pySplitlines text).map pyStrip
  (ls.filter (fun ln => pyStrip ln != "")).map (fun ln => pyStrip (collapseStr ln))

/-- The contact-line test `" | " in ln or "|" in ln` (line 80). -/
def pipeCond (ln : String) : Bool := pyIn " | " ln || pyIn "|" ln

/-- Build the contact dict from a pipe-delimited line (lines 82-94):
split on `|` (each part stripped, as `re.split(r"\s*\|\s*")` plus `strip`),
first part is `location`; over the REMAINING parts, a part containing `@`
is the email and a part containing "linkedin" (case-insensitively) is the
linkedin handle (later parts overwrite earlier ones). -/
def contactStep (c : Contact) (p : String) : Contact :=
  let c1 := if pyIn "@" p then { c with email := p } else c
  if pyIn "linkedin" (pyLower p) then
    { c1 with linkedin :=
        if strStarts p "http" then p else "https://" ++ String.mk (p.data.dropWhile (· = '/')) }
  else c1

def contactOfLine (ln : String) : Contact :=
  let parts := (splitChar '|' ln).map pyStrip
  parts.tail.foldl contactStep { location := parts.headD "" }

/-- Index (in `range(1, min(7, len(lines)))`) of the first line passing
`pipeCond` (lines 78-80). -/
def findContactIdx (lines : List String) : Option Nat :=
  ((List.range (min 7 lines.length)).drop 1).find?
    (fun i => match lines.get? i with
      | some ln => pipeCond ln
      | none => false)

/-- `parse_header` (lines 67-98).  `lines[0]` raises `IndexError` on an empty
list, which the model reflects as `none`. -/
def parseHeader : List String → Option (String × Contact × Nat)
  | [] => none
  | l0 :: rest =>
    let lines := l0 :: rest
    let nm := pyStrip l0
    some (match findContactIdx lines with
      | some i => (pyTitle nm, contactOfLine ((lines.get? i).getD ""), i + 1)
      | none => (pyTitle nm, {}, 1))

/-- One scan step of `find_section_indices` (lines 49-52): record the
upper-cased stripped line as an anchor when it is a known title not yet seen. -/
def sectionScanStep (acc : List (String × Nat)) (p : Nat × String) : List (String × Nat) :=
  let up := pyUpper (pyStrip p.2)
  if SECTION_TITLES.contains up && acc.all (fun kv => kv.1 != up) then acc ++ [(up, p.1)]
  else acc

/-- `find_section_indices` (lines 47-53): ordered association of each known
section title (upper-cased, stripped) with its first occurrence index. -/
def findSectionIndices (lines : List String) : List (String × Nat) :=
  lines.enum.foldl sectionScanStep []

/-- `slice_sections` (lines 56-64): spans between consecutive anchors (the
anchor list is already in increasing index order by construction). -/
def sliceSections (lines : List String) : List (String × Nat) → List (String × List String)
  | [] => []
  | (nm, st) :: rest =>
    let en := match rest with
      | (_, st2) :: _ => st2
      | [] => lines.length
    (nm, (lines.drop (st + 1)).take (en - (st + 1))) :: sliceSections lines rest

/-- Dict lookup on the span association list (keys are unique). -/
def lookupSpan (spans : List (String × List String)) (k : String) : Option (List String) :=
  (spans.find? (fun kv => kv.1 == k)).map (·.2)

/-- The bullet glyph set of `re.sub(r"^[•\-\*]\s*", "", ·)`. -/
def glyphChars : List Char := ['•', '-', '*']

/-- `re.sub(r"^[•\-\*]\s*", "", ln)`: one leading glyph plus following
whitespace removed. -/
def stripGlyph (ln : String) : String :=
  match ln.data with
  | c :: rest => if glyphChars.contains c then ⟨rest.dropWhile pyIsSpace⟩ else ln
  | [] => ln

/-- Glyph removal followed by `strip()`, as in `to_bullets` / bullet lines. -/
def stripGlyphTrim (ln : String) : String := pyStrip (stripGlyph ln)

/-- `to_bullets` (lines 101-113): strip the glyph, keep non-empty remainders. -/
def toBullets (lines : List String) : List String :=
  lines.filterMap (fun ln =>
    let b := stripGlyphTrim ln
    if b = "" then none else some b)

/-- The label regex `^(.+?):\s*(.*)$` of `parse_core_competencies` (line 127):
group 1 is the text before the first colon at index ≥ 1, group 2 (returned
here un-stripped; the caller strips) everything after that colon. -/
def ccMatch (ln : String) : Option (String × String) :=
  match ln.data with
  | [] => none
  | c :: cs =>
    (cs.findIdx? (· == ':')).map (fun j => (String.mk (c :: cs.take j), String.mk (cs.drop (j + 1))))

/-- `parse_core_competencies` (lines 116-143). -/
def parseCoreCompetencies (lines : List String) : List CCBlock :=
  let fin := lines.foldl
    (fun (st : Option String × List String × List CCBlock) ln =>
      let (cur, parts, blocks) := st
      match ccMatch ln with
      | some (g1, g2) =>
        let blocks := match cur with
          | some lb => blocks ++ [{ label := lb, text := pyStrip (joinSep " " parts) }]
          | none => blocks
        let rest := pyStrip g2
        (some (pyStrip g1 ++ ":"), if rest = "" then [] else [rest], blocks)
      | none =>
        match cur with
        | some _ => (cur, parts ++ [pyStrip ln], blocks)
        | none => st)
    (none, [], [])
  match fin.1 with
  | some lb => fin.2.2 ++ [{ label := lb, text := pyStrip (joinSep " " fin.2.1) }]
  | none => fin.2.2

/-- Backtracking helper for the tail `,\s(.+)$` of the job-title regex:
first comma followed by one whitespace character and a non-empty rest. -/
def matchCommaTail : List Char → Option (List Char × List Char)
  | [] => none
  | c :: cs =>
    (if c = ',' then
      match cs with
      | d :: rest => if pyIsSpace d && !rest.isEmpty then some ([], rest) else none
      | [] => none
     else none).orElse
      (fun _ => (matchCommaTail cs).map (fun p => (c :: p.1, p.2)))

/-- Backtracking matcher for `^(.*?)\s-\s(.*?),\s(.+)$` (line 159): the lazy
group 1 ends at the first `\s-\s` whose remainder admits a `,\s(.+)` split. -/
def matchHyphenSplit : List Char → Option (List Char × List Char × List Char)
  | [] => none
  | a :: rest =>
    (if pyIsSpace a then
      match rest with
      | b :: c :: rest2 =>
        if b = '-' && pyIsSpace c then
          (matchCommaTail rest2).map (fun p => (([] : List Char), p.1, p.2))
        else none
      | _ => none
     else none).orElse
      (fun _ => (matchHyphenSplit rest).map (fun t => (a :: t.1, t.2.1, t.2.2)))

/-- `job_title_re.match` with the three groups stripped (lines 166-173). -/
def matchJobTitle (s : String) : Option (String × String × String) :=
  (matchHyphenSplit s.data).map (fun t => (pyStrip ⟨t.1⟩, pyStrip ⟨t.2.1⟩, pyStrip ⟨t.2.2⟩))

/-- `date_re` `^\[(.+?)\]$` (line 160): whole line bracketed, non-empty
interior; the group is stripped by the caller (line 178). -/
def matchDate (s : String) : Option String :=
  if s.data.head? = some '[' ∧ s.data.getLast? = some ']' ∧ 3 ≤ s.data.length then
    some (pyStrip (String.mk ((s.data.drop 1).dropLast)))
  else none

/-- `tech_re` `^Tech stack:\s*(.*)$` with `re.IGNORECASE` (line 161), the
group already stripped as at line 196. -/
def matchTech (s : String) : Option String :=
  if pyLower (strTake s 11) = "tech stack:" then some (pyStrip (strDrop s 11)) else none

/-- `ln.startswith("•") or ln.startswith("-") or ln.startswith("*")`. -/
def isGlyphLine (ln : String) : Bool :=
  strStarts ln "•" || strStarts ln "-" || strStarts ln "*"

/-- `peek.upper() in SECTION_TITLES` (line 201). -/
def isSectionTitleUpper (ln : String) : Bool := SECTION_TITLES.contains (pyUpper ln)

/-- Parser state of `parse_experience`: before any job, right after a
job-title line (a date line may follow), or inside a job's body (the Boolean
is the tech-stack-continuation mode of lines 199-207). -/
inductive ExpMode where
  | seek : ExpMode
  | afterTitle : Job → ExpMode
  | body : Job → Bool → ExpMode
deriving DecidableEq

/-- Rank used for termination: the two transitions that re-process the
current line strictly lower the rank. -/
def modeRank : ExpMode → Nat
  | .seek => 0
  | .afterTitle _ => 2
  | .body _ true => 1
  | .body _ false => 0

def newJob (r c l : String) : Job :=
  { role := r, company := c, location := l }

/-- `tech_stack = re.sub(r"\s+", " ", tech_stack).strip()` (line 208). -/
def collapseTech (j : Job) : Job := { j with tech_stack := pyStrip (collapseStr j.tech_stack) }

/-- Finalize a job: the collapse of line 208 runs exactly when the
continuation loop is active as the job ends. -/
def finishJob (j : Job) (inT : Bool) : Job := if inT then collapseTech j else j

/-- Lines 216-220: a glyph-less line continues the previous bullet if one
exists, else it is dropped. -/
def contBullet (j : Job) (ln : String) : Job :=
  match j.bullets.getLast? with
  | none => j
  | some lb => { j with bullets := j.bullets.dropLast ++ [pyStrip (lb ++ " " ++ ln)] }

/-- The state machine of `parse_experience` (lines 146-234), one transition
per physical line; the two `continue`-like transitions re-process the line
with a lower-ranked mode. -/
def parseExpGo : List String → ExpMode → List Job → List Job
  | [], .seek, jobs => jobs
  | [], .afterTitle j, jobs => jobs ++ [j]
  | [], .body j inT, jobs => jobs ++ [finishJob j inT]
  | ln :: rest, .seek, jobs =>
    match matchJobTitle ln with
    | some (r, c, l) => parseExpGo rest (.afterTitle (newJob r c l)) jobs
    | none => parseExpGo rest .seek jobs
  | ln :: rest, .afterTitle j, jobs =>
    match matchDate ln with
    | some d => parseExpGo rest (.body { j with dates := d } false) jobs
    | none => parseExpGo (ln :: rest) (.body j false) jobs
  | ln :: rest, .body j inT, jobs =>
    match matchJobTitle ln with
    | some (r, c, l) => parseExpGo rest (.afterTitle (newJob r c l)) (jobs ++ [finishJob j inT])
    | none =>
      if inT then
        if isSectionTitleUpper ln || isGlyphLine ln then
          parseExpGo (ln :: rest) (.body (collapseTech j) false) jobs
        else
          parseExpGo rest (.body { j with tech_stack := j.tech_stack ++ " " ++ pyStrip ln } true) jobs
      else
        match matchTech ln with
        | some t0 => parseExpGo rest (.body { j with tech_stack := t0 } true) jobs
        | none =>
          if isGlyphLine ln then
            parseExpGo rest (.body { j with bullets := j.bullets ++ [stripGlyphTrim ln] } false) jobs
          else
            parseExpGo rest (.body (contBullet j ln) false) jobs
termination_by lines mode _ => (lines.length, modeRank mode)
decreasing_by
  all_goals simp_wf
  all_goals first
    | exact Prod.Lex.right _ (by simp_all [modeRank])
    | exact Prod.Lex.left _ _ (by simp)

/-- `parse_experience` (lines 146-234). -/
def parseExperience (lines : List String) : List Job := parseExpGo lines .seek []

/-- `build_yaml` (lines 237-283). -/
def buildYaml (name : String) (contact : Contact) (spans : List (String × List String)) :
    Document :=
  let s1 : List Sec := match lookupSpan spans "SUMMARY" with
    | some ls => [{ title := "Summary", type := "bullets", items := toBullets ls }]
    | none => []
  let s2 : List Sec := match lookupSpan spans "CORE COMPETENCIES" with
    | some ls => [{ title := "Core Competencies", type := "core_competencies",
                    blocks := parseCoreCompetencies ls }]
    | none => []
  let s3 : List Sec := match lookupSpan spans "EDUCATION" with
    | some ls => [{ title := "Education", type := "education", items := toBullets ls }]
    | none => []
  let s4 : List Sec := match lookupSpan spans "SELECTED ACHIEVEMENTS" with
    | some ls => [{ title := "Selected Achievements", type := "bullets", items := toBullets ls }]
    | none => []
  let s5 : List Sec := match lookupSpan spans "PROFESSIONAL EXPERIENCE" with
    | some ls => [{ title := "Professional Experience", type := "experience",
                    jobs := parseExperience ls }]
    | none => []
  let extras : List Sec :=
    (spans.filter (fun kv => !SECTION_TITLES.contains kv.1)).map
      (fun kv => { title := pyTitle kv.1, type := "bullets", items := toBullets kv.2 })
  { name := name, contact := contact, sections := s1 ++ s2 ++ s3 ++ s4 ++ s5 ++ extras }

/-- The reverse-parser pipeline of `main` (lines 292-310), starting from the
normalized line list; `none` models the `IndexError` of `parse_header` on an
empty list. -/
def reverseParse (lines : List String) : Option Document :=
  (parseHeader lines).map (fun t =>
    let body := lines.drop t.2.2
    let idx := findSectionIndices body
    if idx.isEmpty then
      { name := t.1, contact := t.2.1,
        sections := [{ title := "Content", type := "bullets", items := toBullets body }] }
    else buildYaml t.1 t.2.1 (sliceSections body idx))

/-- Full pipeline from raw extracted text (normalization then parse). -/
def reverseParseText (text : String) : Option Document :=
  reverseParse (normalizeLines text)

/-! ### Canonical text renderer: `src/app/render_text.py` -/

/-- The contact line of `resume_to_text` (lines 15-23): the three stripped
fields joined by `" | "`, then `.strip(" |")` on the result. -/
def contactLine (c : Contact) : String :=
  pyStripChars [' ', '|']
    (joinSep " | " [pyStrip c.location, pyStrip c.email, pyStrip c.linkedin])

/-- Modelled from the spec's words, for comparison with the code's
`contactLine`: "location, email, linkedin joined by ` | `, omitting
empty fields and surrounding separators". -/
def specContactLine (c : Contact) : String :=
  joinSep " | "
    (([pyStrip c.location, pyStrip c.email, pyStrip c.linkedin]).filter (fun f => f != ""))

/-- Per-job lines of the experience branch (lines 42-57). -/
def renderJob (j : Job) : List String :=
  [pyStripChars [' ', '-', ',']
      (pyStrip j.role ++ " - " ++ pyStrip j.company ++ ", " ++ pyStrip j.location)] ++
  (let dates := pyStrip j.dates
   if dates ≠ "" then ["[" ++ dates ++ "]"] else []) ++
  j.bullets.map (fun b => pyStrip ("- " ++ b)) ++
  (let tech := pyStrip j.tech_stack
   if tech ≠ "" then ["Tech stack: " ++ tech] else [])

/-- Per-section lines of `resume_to_text` (lines 25-62). -/
def renderSec (s : Sec) : List String :=
  ["", pyUpper (pyStrip s.title)] ++
  (let ty := pyStrip s.type
   if ty = "bullets" ∨ ty = "education" then
     s.items.map (fun it => pyStrip ("- " ++ it))
   else if ty = "core_competencies" then
     s.blocks.map (fun b => pyStrip (pyStrip b.label ++ " " ++ pyStrip b.text))
   else if ty = "experience" then
     s.jobs.flatMap renderJob
   else
     s.paragraphs)

/-- The `out` line list accumulated by `resume_to_text` before the final
join/strip (lines 11-63). -/
def renderOut (r : Document) : List String :=
  [pyStrip r.name, contactLine r.contact] ++ r.sections.flatMap renderSec

/-- `resume_to_text` (lines 6-66): join the lines (each `rstrip`ped), strip
the whole text, append one newline. -/
def resumeToText (r : Document) : String :=
  pyStrip (joinSep "\n" ((renderOut r).map pyRStrip)) ++ "\n"

/-! ### Structural diff engine: `src/app/diff.py` -/

/-- The section-index key `(s.get("title") or "").strip().lower()`
(lines 40-41). -/
def normTitle (s : Sec) : String := pyLower (pyStrip s.title)

/-- Dict comprehension `{normTitle s: s for s in sections}`: for each key the
LAST section with that normalized title wins. -/
def secIndex (secs : List Sec) (t : String) : Option Sec :=
  (secs.filter (fun s => normTitle s == t)).getLast?

/-- The job identity key `(role, company, dates)` after stripping
(lines 19-23). -/
def jobKey (j : Job) : String × String × String :=
  (pyStrip j.role, pyStrip j.company, pyStrip j.dates)

/-- `_index_experience` (lines 10-25) as an ordered association list; dict
semantics mean the LAST binding of a key wins. -/
def expIndex (r : Document) : List ((String × String × String) × Job) :=
  r.sections.foldl
    (fun acc s =>
      if s.type == "experience" then acc ++ s.jobs.map (fun j => (jobKey j, j)) else acc)
    []

/-- Dict lookup on an association list built by successive insertion: the
last binding of the key is the value. -/
def dictLast {α β : Type} [DecidableEq α] (l : List (α × β)) (k : α) : Option β :=
  ((l.filter (fun kv => kv.1 = k)).getLast?).map (·.2)

/-- Lexicographic order on the job key triple, as Python compares tuples of
strings. -/
def keyLe (a b : String × String × String) : Prop :=
  a.1 < b.1 ∨ (a.1 = b.1 ∧ (a.2.1 < b.2.1 ∨ (a.2.1 = b.2.1 ∧ a.2.2 ≤ b.2.2)))

instance : DecidableRel keyLe := fun a b => by
  unfold keyLe; infer_instance

instance : IsTotal (String × String × String) keyLe where
  total a b := by
    rcases lt_trichotomy a.1 b.1 with h | h | h
    · exact Or.inl (Or.inl h)
    · rcases lt_trichotomy a.2.1 b.2.1 with h2 | h2 | h2
      · exact Or.inl (Or.inr ⟨h, Or.inl h2⟩)
      · rcases le_total a.2.2 b.2.2 with h3 | h3
        · exact Or.inl (Or.inr ⟨h, Or.inr ⟨h2, h3⟩⟩)
        · exact Or.inr (Or.inr ⟨h.symm, Or.inr ⟨h2.symm, h3⟩⟩)
      · exact Or.inr (Or.inr ⟨h.symm, Or.inl h2⟩)
    · exact Or.inr (Or.inl h)

instance : IsTrans (String × String × String) keyLe where
  trans a b c hab hbc := by
    rcases hab with h1 | ⟨e1, h1⟩
    · rcases hbc with h2 | ⟨e2, _⟩
      · exact Or.inl (h1.trans h2)
      · exact Or.inl (e2 ▸ h1)
    · rcases hbc with h2 | ⟨e2, h2⟩
      · exact Or.inl (e1 ▸ h2)
      · refine Or.inr ⟨e1.trans e2, ?_⟩
        rcases h1 with h1 | ⟨f1, h1⟩
        · rcases h2 with h2 | ⟨f2, _⟩
          · exact Or.inl (h1.trans h2)
          · exact Or.inl (f2 ▸ h1)
        · rcases h2 with h2 | ⟨f2, h2⟩
          · exact Or.inl (f1 ▸ h2)
          · exact Or.inr ⟨f1.trans f2, h1.trans h2⟩

instance : IsAntisymm (String × String × String) keyLe where
  antisymm a b hab hba := by
    rcases hab with h1 | ⟨e1, h1⟩ <;> rcases hba with h2 | ⟨e2, h2⟩
    · exact absurd (h1.trans h2) (lt_irrefl _)
    · exact absurd h1 (e2 ▸ lt_irrefl _)
    · exact absurd h2 (e1 ▸ lt_irrefl _)
    · rcases h1 with h1 | ⟨f1, h1⟩ <;> rcases h2 with h2 | ⟨f2, h2⟩
      · exact absurd (h1.trans h2) (lt_irrefl _)
      · exact absurd h1 (f2 ▸ lt_irrefl _)
      · exact absurd h2 (f1 ▸ lt_irrefl _)
      · have : a.2.2 = b.2.2 := le_antisymm h1 h2
        exact Prod.ext e1 (Prod.ext f1 this)

/-- Python `sorted(set(xs) | set(ys))` on strings. -/
def sortedTitleUnion (xs ys : List String) : List String :=
  List.insertionSort (· ≤ ·) ((xs ++ ys).dedup)

/-- Python `sorted(set(bidx.keys()) | set(aidx.keys()))` on job keys
(line 104). -/
def sortedKeyUnion (xs ys : List (String × String × String)) :
    List (String × String × String) :=
  List.insertionSort keyLe ((xs ++ ys).dedup)

/-- `f"### {role} - {company} [{dates}]".strip()` (line 110). -/
def jobHeader (k : String × String × String) : String :=
  pyStrip ("### " ++ k.1 ++ " - " ++ k.2.1 ++ " [" ++ k.2.2 ++ "]")

/-- One job's report block inside the experience branch (lines 106-147). -/
def jobBlock (bidx aidx : List ((String × String × String) × Job))
    (k : String × String × String) : List String :=
  let header := jobHeader k
  match dictLast bidx k, dictLast aidx k with
  | none, none => []
  | none, some _ => [header, "- ✅ Added job block", ""]
  | some _, none => [header, "- ❌ Removed job block", ""]
  | some bj, some aj =>
    let added := aj.bullets.filter (fun x => decide (x ∉ bj.bullets))
    let removed := bj.bullets.filter (fun x => decide (x ∉ aj.bullets))
    let btech := pyStrip bj.tech_stack
    let atech := pyStrip aj.tech_stack
    if added = [] ∧ removed = [] ∧ btech = atech then [header, "- No change", ""]
    else
      header ::
        ((if added ≠ [] then "**Added bullets**" :: added.map (fun x => "- " ++ x) else []) ++
         (if removed ≠ [] then "**Removed bullets**" :: removed.map (fun x => "- " ++ x) else []) ++
         (if btech ≠ atech then ["**Tech stack**: `" ++ btech ++ "` → `" ++ atech ++ "`"]
          else [])) ++
        [""]

/-- The body of one title's report in `make_diff_markdown` (lines 45-151),
dispatching on the tailored section's `type` (lines 62-150). -/
def titleBlock (base tailored : Document) (t : String) : List String :=
  match secIndex base.sections t, secIndex tailored.sections t with
  | none, none => []
  | none, some a => ["## " ++ pyStrip a.title, "- ✅ Added section", ""]
  | some b, none => ["## " ++ pyStrip b.title, "- ❌ Removed section", ""]
  | some b, some a =>
    ("## " ++ pyStrip a.title) ::
      ((if b.type ≠ a.type then ["- Type changed: `" ++ b.type ++ "` → `" ++ a.type ++ "`"]
        else []) ++
       (if a.type = "bullets" ∨ a.type = "education" then
          let added := a.items.filter (fun x => decide (x ∉ b.items))
          let removed := b.items.filter (fun x => decide (x ∉ a.items))
          if added = [] ∧ removed = [] then ["- No change"]
          else
            (if added ≠ [] then "### Added" :: added.map (fun x => "- " ++ x) else []) ++
            (if removed ≠ [] then "### Removed" :: removed.map (fun x => "- " ++ x) else [])
        else if a.type = "core_competencies" then
          if b.blocks = a.blocks then ["- No change"]
          else
            ["- Updated competency blocks (review below)", "", "### Tailored"] ++
            a.blocks.map (fun bl => pyStrip ("- **" ++ bl.label ++ "** " ++ bl.text))
        else if a.type = "experience" then
          let bidx := expIndex base
          let aidx := expIndex tailored
          (sortedKeyUnion (bidx.map (·.1)) (aidx.map (·.1))).flatMap (jobBlock bidx aidx)
        else ["- (Section type not diffed in detail yet)"]) ++
       [""])

/-- The sorted title union `all_titles` (line 43). -/
def allTitles (base tailored : Document) : List String :=
  sortedTitleUnion (base.sections.map normTitle) (tailored.sections.map normTitle)

/-- The full line list accumulated by `make_diff_markdown` (lines 28-151). -/
def diffLines (base tailored : Document) : List String :=
  ["# Resume Diff", "", "## High-level",
   "- Name: `" ++ base.name ++ "` → `" ++ tailored.name ++ "`", ""] ++
  (allTitles base tailored).flatMap (titleBlock base tailored)

/-- `make_diff_markdown` (line 153): `"\n".join(lines).strip() + "\n"`. -/
def makeDiffMarkdown (base tailored : Document) : String :=
  pyStrip (joinSep "\n" (diffLines base tailored)) ++ "\n"

/-! ### Score clamping: `src/app/score.py` -/

/-- The numeric part of the scoring-service JSON response; `none` models a
missing field (`data.get(k, 0)` then supplies `0`).  Numbers are modelled as
rationals. -/
structure ScoreResp where
  ats_score : Option ℚ := none
  confidence : Option ℚ := none
deriving DecidableEq

structure ScoreResult where
  ats_score : ℚ
  confidence : ℚ
deriving DecidableEq

/-- `max(0.0, min(100.0, x))` (lines 40 and 43). -/
def clampScore (x : ℚ) : ℚ := max 0 (min 100 x)

/-- The normalization step of `compute_ats_score_llm` (lines 38-44) applied
to the service response. -/
def normalizeScores (d : ScoreResp) : ScoreResult :=
  { ats_score := clampScore (d.ats_score.getD 0),
    confidence := clampScore (d.confidence.getD 0) }

/-! ### Shared helper lemmas -/

theorem clampScore_nonneg (x : ℚ) : 0 ≤ clampScore x := le_max_left _ _

theorem clampScore_le_hundred (x : ℚ) : clampScore x ≤ 100 :=
  max_le (by norm_num) (min_le_left _ _)

theorem clampScore_of_neg {x : ℚ} (h : x < 0) : clampScore x = 0 := by
  unfold clampScore
  rw [min_eq_right (h.le.trans (by norm_num)), max_eq_left h.le]

theorem clampScore_of_gt {x : ℚ} (h : 100 < x) : clampScore x = 100 := by
  unfold clampScore
  rw [min_eq_left h.le, max_eq_right (by norm_num)]

theorem sectionScan_keys_known :
    ∀ (l : List (Nat × String)) (acc : List (String × Nat)),
      (∀ kv ∈ acc, kv.1 ∈ SECTION_TITLES) →
      ∀ kv ∈ l.foldl sectionScanStep acc, kv.1 ∈ SECTION_TITLES := by
  intro l
  induction l with
  | nil => intro acc hacc kv hkv; exact hacc kv hkv
  | cons p rest ih =>
    intro acc hacc kv hkv
    refine ih (sectionScanStep acc p) ?_ kv hkv
    intro kv' hkv'
    unfold sectionScanStep at hkv'
    by_cases hc :
        (SECTION_TITLES.contains (pyUpper (pyStrip p.2)) &&
          acc.all (fun kv => kv.1 != pyUpper (pyStrip p.2))) = true
    · rw [if_pos hc] at hkv'
      rcases List.mem_append.mp hkv' with h | h
      · exact hacc kv' h
      · have : kv' = (pyUpper (pyStrip p.2), p.1) := List.mem_singleton.mp h
        subst this
        have hmem := (Bool.and_eq_true _ _).mp hc |>.1
        simpa using hmem
    · rw [if_neg hc] at hkv'
      exact hacc kv' hkv'

/-! ### Claim C1 -/

/-- C1 counterexample: the empty line sequence is produced by normalizing the
empty text, and on it the pipeline does NOT complete — `parse_header` indexes
`lines[0]` and raises, modelled by `reverseParse [] = none`.  The claim
states the pipeline completes for every normalized line sequence including
the empty one. -/
theorem reverseParse_empty_raises :
    normalizeLines "" = [] ∧ reverseParse (normalizeLines "") = none := by
  decide

/-- C1 amended: for every NON-EMPTY line sequence (in particular every
non-empty output of the normalization stage) the reverse-parser pipeline
completes without raising and produces a Document; on the empty sequence
`parse_header` raises `IndexError`. -/
theorem reverseParse_total_of_ne_nil (lines : List String) (h : lines ≠ []) :
    (reverseParse lines).isSome = true := by
  match lines, h with
  | l :: r, _ => simp [reverseParse, parseHeader]

/-- Witness for `reverseParse_total_of_ne_nil` at a concrete input. -/
theorem reverseParse_total_witness :
    (["Jane Doe"] : List String) ≠ [] ∧ (reverseParse ["Jane Doe"]).isSome = true :=
  ⟨by decide, reverseParse_total_of_ne_nil ["Jane Doe"] (by decide)⟩

/-! ### Claim C3 -/

/-- C3: the code never emits an unknown section title as an extra section.
`find_section_indices` only records titles from the fixed vocabulary
(second conjunct), so the `extras` branch of `build_yaml` (lines 274-281) is
unreachable; at the failing input the unrecognized heading `PUBLICATIONS`
and its content are absorbed verbatim into the preceding known section
instead of becoming an extra bulleted section titled `Publications`
(first conjunct). -/
theorem unknown_title_not_preserved :
    reverseParse
        ["Jane Doe", "Remote | jane@x.com | linkedin.com/in/jane", "SUMMARY",
         "- Built things", "PUBLICATIONS", "- Paper A"] =
      some
        { name := "Jane Doe",
          contact := { location := "Remote", email := "jane@x.com",
                       linkedin := "https://linkedin.com/in/jane" },
          sections := [{ title := "Summary", type := "bullets",
                         items := ["Built things", "PUBLICATIONS", "Paper A"] }] } ∧
    ∀ (lines : List String), ∀ kv ∈ findSectionIndices lines, kv.1 ∈ SECTION_TITLES := by
  refine ⟨by decide, ?_⟩
  intro lines kv hkv
  exact sectionScan_keys_known lines.enum [] (by simp) kv hkv

/-! ### Claim C8 -/

/-- C8: whatever numeric values (or absences) the scoring-service response
carries, `compute_ats_score_llm` returns `ats_score` and `confidence`
clamped into the closed interval from 0 to 100: values below 0 become 0,
values above 100 become 100, and missing fields become 0. -/
theorem scores_clamped (d : ScoreResp) :
    (0 ≤ (normalizeScores d).ats_score ∧ (normalizeScores d).ats_score ≤ 100) ∧
    (0 ≤ (normalizeScores d).confidence ∧ (normalizeScores d).confidence ≤ 100) ∧
    (∀ x : ℚ, d.ats_score = some x → x < 0 → (normalizeScores d).ats_score = 0) ∧
    (∀ x : ℚ, d.ats_score = some x → 100 < x → (normalizeScores d).ats_score = 100) ∧
    (d.ats_score = none → (normalizeScores d).ats_score = 0) ∧
    (∀ x : ℚ, d.confidence = some x → x < 0 → (normalizeScores d).confidence = 0) ∧
    (∀ x : ℚ, d.confidence = some x → 100 < x → (normalizeScores d).confidence = 100) ∧
    (d.confidence = none → (normalizeScores d).confidence = 0) := by
  refine ⟨⟨clampScore_nonneg _, clampScore_le_hundred _⟩,
          ⟨clampScore_nonneg _, clampScore_le_hundred _⟩, ?_, ?_, ?_, ?_, ?_, ?_⟩
  · intro x hx hneg
    simp [normalizeScores, hx, clampScore_of_neg hneg]
  · intro x hx hgt
    simp [normalizeScores, hx, clampScore_of_gt hgt]
  · intro hx
    simp only [normalizeScores, hx, Option.getD_none]
    unfold clampScore
    norm_num
  · intro x hx hneg
    simp [normalizeScores, hx, clampScore_of_neg hneg]
  · intro x hx hgt
    simp [normalizeScores, hx, clampScore_of_gt hgt]
  · intro hx
    simp only [normalizeScores, hx, Option.getD_none]
    unfold clampScore
    norm_num

/-- Witness for `scores_clamped` at a concrete response. -/
theorem scores_clamped_witness :
    (normalizeScores ⟨some (-5), some 250⟩).ats_score = 0 ∧
    (normalizeScores ⟨some (-5), some 250⟩).confidence = 100 :=
  ⟨(scores_clamped ⟨some (-5), some 250⟩).2.2.1 (-5) rfl (by norm_num),
   (scores_clamped ⟨some (-5), some 250⟩).2.2.2.2.2.2.1 250 rfl (by norm_num)⟩

/-! ### Claim C2: counterexample -/

/-- C2 counterexample: with a non-empty location and linkedin but an empty
email (the middle field), the rendered contact line keeps both separators
around the empty field — `"Remote |  | x"` — because `.strip(" |")` only
trims the ends; the spec's join-with-omission would give `"Remote | x"`.
The doubled separator appears verbatim in the canonical text. -/
theorem contact_line_doubled_separator :
    contactLine ⟨"Remote", "", "x"⟩ = "Remote |  | x" ∧
    specContactLine ⟨"Remote", "", "x"⟩ = "Remote | x" ∧
    contactLine ⟨"Remote", "", "x"⟩ ≠ specContactLine ⟨"Remote", "", "x"⟩ ∧
    pyIn " |  | " (resumeToText ⟨"Jane", ⟨"Remote", "", "x"⟩, []⟩) = true ∧
    resumeToText ⟨"Jane", ⟨"Remote", "", "x"⟩, []⟩ = "Jane\nRemote |  | x\n" := by
  decide

/-! ### Claim C2: amended theorem -/

/-- Edge condition under which `strip(" |")` leaves a string intact: it is
non-empty and neither end is a space or a pipe. -/
def noStripEdges (s : String) : Bool :=
  (match s.data.head? with
   | some c => !(c = ' ' || c = '|')
   | none => false) &&
  (match s.data.getLast? with
   | some c => !(c = ' ' || c = '|')
   | none => false)

theorem noStripEdges_head {s : String} (h : noStripEdges s = true) :
    ∃ c, s.data.head? = some c ∧ ((c = ' ' || c = '|') = false) := by
  have h1 := (Bool.and_eq_true _ _).mp h |>.1
  cases hd : s.data.head? with
  | none => rw [hd] at h1; exact absurd h1 (by simp)
  | some c =>
    rw [hd] at h1
    exact ⟨c, rfl, by simpa using h1⟩

theorem noStripEdges_last {s : String} (h : noStripEdges s = true) :
    ∃ c, s.data.getLast? = some c ∧ ((c = ' ' || c = '|') = false) := by
  have h1 := (Bool.and_eq_true _ _).mp h |>.2
  cases hd : s.data.getLast? with
  | none => rw [hd] at h1; exact absurd h1 (by simp)
  | some c =>
    rw [hd] at h1
    exact ⟨c, rfl, by simpa using h1⟩

/-- `stripEnds` is the identity when neither end character satisfies the
predicate. -/
theorem stripEnds_eq_self (p : Char → Bool) (l : List Char)
    (h1 : ∀ c, l.head? = some c → p c = false)
    (h2 : ∀ c, l.getLast? = some c → p c = false) :
    stripEnds p l = l := by
  cases l with
  | nil => rfl
  | cons a as =>
    unfold stripEnds
    rw [List.dropWhile_cons, if_neg (by simp [h1 a rfl])]
    cases hrev : (a :: as).reverse with
    | nil => exact absurd hrev (by simp)
    | cons b bs =>
      have hlast : (a :: as).getLast? = some b := by
        rw [← List.head?_reverse, hrev]; rfl
      rw [List.dropWhile_cons, if_neg (by simp [h2 b hlast]), ← hrev,
        List.reverse_reverse]

/-- `isSubList` detects every contiguous sublist. -/
theorem isSubList_of_infix (n : List Char) :
    ∀ (l : List Char), n <:+: l → isSubList n l = true := by
  intro l
  induction l with
  | nil =>
    intro h
    have : n = [] := List.infix_nil.mp h
    subst this
    rfl
  | cons c rest ih =>
    intro h
    obtain ⟨s, t, hst⟩ := h
    show (n.isPrefixOf (c :: rest) || isSubList n rest) = true
    cases s with
    | nil =>
      have : n <+: c :: rest := ⟨t, by simpa using hst⟩
      rw [List.isPrefixOf_iff_prefix.mpr this, Bool.true_or]
    | cons x xs =>
      have hrest : rest = xs ++ n ++ t := by
        have := hst
        simp only [List.cons_append] at this
        exact (List.cons.injEq _ _ _ _).mp this |>.2.symm
      rw [ih ⟨xs, t, hrest.symm⟩, Bool.or_true]

/-- C2 amended: the contact line is the three trimmed fields joined by
` | ` and then stripped of leading/trailing spaces and pipes; empty fields
at the ENDS therefore leave no dangling separator, but an empty email
between a non-empty location and linkedin is not omitted: the line is
`location |  | linkedin`, with a doubled separator. -/
theorem contact_middle_field_kept (loc em lnk : String)
    (hl : noStripEdges (pyStrip loc) = true)
    (hk : noStripEdges (pyStrip lnk) = true)
    (he : pyStrip em = "") :
    contactLine ⟨loc, em, lnk⟩ = pyStrip loc ++ " |  | " ++ pyStrip lnk ∧
    pyIn " |  | " (contactLine ⟨loc, em, lnk⟩) = true ∧
    ∀ (nm : String) (secs : List Sec),
      (renderOut ⟨nm, ⟨loc, em, lnk⟩, secs⟩).get? 1 = some (contactLine ⟨loc, em, lnk⟩) := by
  obtain ⟨c0, hc0, hc0p⟩ := noStripEdges_head hl
  obtain ⟨c1, hc1, hc1p⟩ := noStripEdges_last hk
  have hjoin :
      (joinSep " | " [pyStrip loc, pyStrip em, pyStrip lnk]).data =
        (pyStrip loc).data ++ ((' ' :: '|' :: ' ' :: ' ' :: '|' :: ' ' :: []) ++
          (pyStrip lnk).data) := by
    rw [he]
    show List.intercalate " | ".data [(pyStrip loc).data, [], (pyStrip lnk).data] = _
    simp [List.intercalate, List.intersperse]
  have hmain : contactLine ⟨loc, em, lnk⟩ = pyStrip loc ++ " |  | " ++ pyStrip lnk := by
    apply String.ext
    show stripEnds (fun c => ([' ', '|'] : List Char).contains c)
        (joinSep " | " [pyStrip loc, pyStrip em, pyStrip lnk]).data = _
    rw [hjoin]
    rw [stripEnds_eq_self]
    · rw [String.data_append, String.data_append,
        show (" |  | " : String).data = [' ', '|', ' ', ' ', '|', ' '] from rfl]
      simp [List.append_assoc]
    · intro c hc
      obtain ⟨ds, hds⟩ : ∃ ds, (pyStrip loc).data = c0 :: ds := by
        cases hpl : (pyStrip loc).data with
        | nil => rw [hpl] at hc0; exact absurd hc0 (by simp)
        | cons x xs =>
          rw [hpl] at hc0
          simp only [List.head?_cons, Option.some.injEq] at hc0
          exact ⟨xs, by rw [hc0]⟩
      rw [hds] at hc
      simp only [List.cons_append, List.head?_cons, Option.some.injEq] at hc
      subst hc
      simpa using hc0p
    · intro c hc
      have hne : (pyStrip lnk).data ≠ [] := by
        intro hnil
        rw [hnil] at hc1
        exact absurd hc1 (by simp)
      rw [show (pyStrip loc).data ++ ((' ' :: '|' :: ' ' :: ' ' :: '|' :: ' ' :: []) ++
            (pyStrip lnk).data) =
          ((pyStrip loc).data ++ (' ' :: '|' :: ' ' :: ' ' :: '|' :: ' ' :: [])) ++
            (pyStrip lnk).data from by simp,
        List.getLast?_append_of_ne_nil _ hne] at hc
      rw [hc1] at hc
      cases hc
      simpa using hc1p
  refine ⟨hmain, ?_, ?_⟩
  · rw [hmain]
    apply isSubList_of_infix
    exact ⟨(pyStrip loc).data, (pyStrip lnk).data, by simp⟩
  · intro nm secs
    rfl

/-- Witness for `contact_middle_field_kept` at a concrete contact. -/
theorem contact_middle_field_witness :
    contactLine ⟨"Remote", "", "x"⟩ = pyStrip "Remote" ++ " |  | " ++ pyStrip "x" ∧
    pyIn " |  | " (contactLine ⟨"Remote", "", "x"⟩) = true :=
  ⟨(contact_middle_field_kept "Remote" "" "x" (by decide) (by decide) (by decide)).1,
   (contact_middle_field_kept "Remote" "" "x" (by decide) (by decide) (by decide)).2.1⟩

/-! ### Claim C4: counterexample -/

/-- Document with a single section of an unrecognized type, for the C4
counterexample. -/
def c4doc : Document := ⟨"N", ⟨"", "", ""⟩, [⟨"Notes", "other", [], [], [], ["p"]⟩]⟩

/-- C4 counterexample: for a Document containing a section whose type is
none of the four diffable ones, the self-diff does NOT report "no change"
for that shared section; it emits the not-diffed placeholder instead. -/
theorem self_diff_placeholder_section :
    "notes" ∈ allTitles c4doc c4doc ∧
    "- No change" ∉ titleBlock c4doc c4doc "notes" ∧
    titleBlock c4doc c4doc "notes" =
      ["## Notes", "- (Section type not diffed in detail yet)", ""] := by
  decide

/-! ### Claim C6: counterexample -/

/-- C6 counterexample: the header-parsing loop iterates `parts[1:]`, so a
contact line whose FIRST field contains `@` leaves the email empty — the
field only becomes the location. -/
theorem first_field_email_ignored :
    parseHeader ["X", "a@b | c"] = some ("X", ⟨"a@b", "", ""⟩, 2) ∧
    pyIn "@" "a@b" = true := by
  decide

/-! ### Claim C7: counterexample -/

/-- C7 counterexample: a post-header line consisting of a bare bullet glyph
is non-empty after normalization, but glyph-stripping reduces it to the
empty string and `to_bullets` drops it, so the fallback "Content" section
does not contain one item per non-empty post-header line. -/
theorem fallback_drops_bare_glyph_line :
    reverseParse ["Jane", "-"] =
      some ⟨"Jane", ⟨"", "", ""⟩, [⟨"Content", "bullets", [], [], [], []⟩]⟩ ∧
    ("-" : String) ≠ "" ∧ stripGlyphTrim "-" = "" := by
  decide

/-! ### Claim C10: counterexample -/

def c10job : Job := ⟨"Engineer", "Acme", "NYC", "2020", ["Built X"], "Go"⟩

def c10dup : Sec := ⟨"Experience", "experience", [], [], [c10job], []⟩

def c10last : Sec := ⟨" experience ", "experience", [], [], [], []⟩

/-- Base document holding the earlier duplicate (with a job) and the later
duplicate (empty). -/
def c10base : Document := ⟨"X", ⟨"", "", ""⟩, [c10dup, c10last]⟩

/-- The same base with the earlier duplicate removed. -/
def c10baseNoDup : Document := ⟨"X", ⟨"", "", ""⟩, [c10last]⟩

def c10tail : Document := ⟨"X", ⟨"", "", ""⟩, [c10last]⟩

/-! ### Claim C4: amended theorem -/

theorem filter_not_mem_self {α : Type} [DecidableEq α] (l : List α) :
    l.filter (fun x => decide (x ∉ l)) = [] :=
  List.filter_eq_nil_iff.mpr (fun a ha => by simp [ha])

theorem dictLast_isSome_of_mem_keys {α β : Type} [DecidableEq α]
    (l : List (α × β)) (k : α) (h : k ∈ l.map Prod.fst) :
    (dictLast l k).isSome = true := by
  obtain ⟨kv, hkv, hfst⟩ := List.mem_map.mp h
  have hmem : kv ∈ l.filter (fun kv => decide (kv.1 = k)) :=
    List.mem_filter.mpr ⟨hkv, by simp [hfst]⟩
  have hne : l.filter (fun kv => decide (kv.1 = k)) ≠ [] := by
    intro hnil
    rw [hnil] at hmem
    exact absurd hmem (List.not_mem_nil kv)
  obtain ⟨v, hv⟩ := Option.isSome_iff_exists.mp (List.getLast?_isSome.mpr hne)
  unfold dictLast
  rw [hv]
  rfl

theorem dictLast_mem_keys {α β : Type} [DecidableEq α]
    {l : List (α × β)} {k : α} {v : β} (h : dictLast l k = some v) :
    k ∈ l.map Prod.fst := by
  unfold dictLast at h
  cases hlast : (l.filter (fun kv => decide (kv.1 = k))).getLast? with
  | none => rw [hlast] at h; cases h
  | some kv =>
    have hmem : kv ∈ l.filter (fun kv => decide (kv.1 = k)) :=
      List.mem_of_mem_getLast? hlast
    have := List.mem_filter.mp hmem
    exact List.mem_map.mpr ⟨kv, this.1, by simpa using this.2⟩

/-- Self comparison of a job key present in the index yields the
"No change" block. -/
theorem jobBlock_self (idx : List ((String × String × String) × Job))
    (k : String × String × String) (h : (dictLast idx k).isSome = true) :
    jobBlock idx idx k = [jobHeader k, "- No change", ""] := by
  obtain ⟨j, hj⟩ := Option.isSome_iff_exists.mp h
  simp [jobBlock, hj, filter_not_mem_self]

theorem mem_sortedKeyUnion {k : String × String × String}
    {xs ys : List (String × String × String)} :
    k ∈ sortedKeyUnion xs ys ↔ k ∈ xs ∨ k ∈ ys := by
  simp [sortedKeyUnion, List.mem_insertionSort, List.mem_dedup]

theorem sortedKeyUnion_nodup (xs ys : List (String × String × String)) :
    (sortedKeyUnion xs ys).Nodup :=
  ((List.perm_insertionSort keyLe _).nodup_iff).mpr (List.nodup_dedup _)

theorem sortedKeyUnion_sorted (xs ys : List (String × String × String)) :
    (sortedKeyUnion xs ys).Sorted keyLe :=
  List.sorted_insertionSort keyLe _

/-- `getLast?`-preservation through `dropWhile` when the kept element fails
the predicate. -/
theorem getLast?_dropWhile {α : Type} (p : α → Bool) (c : α) :
    ∀ (l : List α), p c = false → l.getLast? = some c →
      (l.dropWhile p).getLast? = some c := by
  intro l
  induction l with
  | nil => intro _ h; cases h
  | cons a as ih =>
    intro hc h
    rw [List.dropWhile_cons]
    by_cases hpa : p a = true
    · rw [if_pos hpa]
      cases as with
      | nil =>
        have ha : a = c := by simpa using h
        rw [ha] at hpa
        rw [hpa] at hc
        cases hc
      | cons b bs =>
        exact ih hc (by rw [← List.getLast?_cons_cons (a := a)]; exact h)
    · rw [if_neg hpa]
      exact h

/-- Stripping whitespace from a string whose first character is not
whitespace keeps that first character. -/
theorem head?_stripEnds {p : Char → Bool} {c : Char} (m : List Char) (hc : p c = false) :
    (stripEnds p (c :: m)).head? = some c := by
  unfold stripEnds
  rw [List.dropWhile_cons, if_neg (by simp [hc]), List.head?_reverse]
  exact getLast?_dropWhile p c _ hc (by rw [List.getLast?_reverse]; rfl)

theorem jobHeader_head (k : String × String × String) :
    (jobHeader k).data.head? = some '#' :=
  head?_stripEnds _ (by decide)

theorem strNeOfHead {a b : String} (h : a.data.head? ≠ b.data.head?) : a ≠ b :=
  fun e => h (by rw [e])

theorem titleLine_head (x : String) : ("## " ++ x).data.head? = some '#' := rfl

theorem not_dash_eq_titleLine {m : String} (hm : m.data.head? = some '-') (x : String) :
    m ≠ "## " ++ x :=
  strNeOfHead (by rw [hm, titleLine_head]; decide)

theorem not_dash_eq_jobHeader {m : String} (hm : m.data.head? = some '-')
    (k : String × String × String) : m ≠ jobHeader k :=
  strNeOfHead (by rw [hm, jobHeader_head]; decide)

theorem titleBlock_self_none {d : Document} {t : String}
    (h : secIndex d.sections t = none) : titleBlock d d t = [] := by
  simp [titleBlock, h]

theorem titleBlock_self_bullets {d : Document} {t : String} {s : Sec}
    (h : secIndex d.sections t = some s)
    (ht : s.type = "bullets" ∨ s.type = "education") :
    titleBlock d d t = ["## " ++ pyStrip s.title, "- No change", ""] := by
  rcases ht with ht | ht <;> simp [titleBlock, h, ht, filter_not_mem_self]

theorem titleBlock_self_cc {d : Document} {t : String} {s : Sec}
    (h : secIndex d.sections t = some s) (ht : s.type = "core_competencies") :
    titleBlock d d t = ["## " ++ pyStrip s.title, "- No change", ""] := by
  simp [titleBlock, h, ht]

theorem titleBlock_self_exp {d : Document} {t : String} {s : Sec}
    (h : secIndex d.sections t = some s) (ht : s.type = "experience") :
    titleBlock d d t =
      ("## " ++ pyStrip s.title) ::
        ((sortedKeyUnion ((expIndex d).map Prod.fst) ((expIndex d).map Prod.fst)).flatMap
          (jobBlock (expIndex d) (expIndex d)) ++ [""]) := by
  simp [titleBlock, h, ht]

theorem titleBlock_self_other {d : Document} {t : String} {s : Sec}
    (h : secIndex d.sections t = some s)
    (h1 : s.type ≠ "bullets") (h2 : s.type ≠ "education")
    (h3 : s.type ≠ "core_competencies") (h4 : s.type ≠ "experience") :
    titleBlock d d t =
      ["## " ++ pyStrip s.title, "- (Section type not diffed in detail yet)", ""] := by
  simp [titleBlock, h, h1, h2, h3, h4]

/-- C4 amended: for every Document d, the self diff reports no added or
removed sections and no added or removed job blocks; every shared section
of a diffable type (bullets, education, core_competencies) reports
"No change", and every matched job reports "No change"; a shared section of
any OTHER type reports the not-diffed placeholder instead of "no change". -/
theorem self_diff_reports_no_change (d : Document) :
    (∀ t : String,
      "- ✅ Added section" ∉ titleBlock d d t ∧
      "- ❌ Removed section" ∉ titleBlock d d t ∧
      "- ✅ Added job block" ∉ titleBlock d d t ∧
      "- ❌ Removed job block" ∉ titleBlock d d t) ∧
    (∀ (t : String) (s : Sec), secIndex d.sections t = some s →
      s.type = "bullets" ∨ s.type = "education" ∨ s.type = "core_competencies" →
      "- No change" ∈ titleBlock d d t) ∧
    (∀ k : String × String × String, (dictLast (expIndex d) k).isSome = true →
      jobBlock (expIndex d) (expIndex d) k = [jobHeader k, "- No change", ""]) ∧
    (∀ (t : String) (s : Sec), secIndex d.sections t = some s →
      s.type ≠ "bullets" → s.type ≠ "education" → s.type ≠ "core_competencies" →
      s.type ≠ "experience" →
      "- (Section type not diffed in detail yet)" ∈ titleBlock d d t) := by
  have hmarkers : ∀ (t m : String), m.data.head? = some '-' → m ≠ "- No change" →
      m ≠ "- (Section type not diffed in detail yet)" → m ∉ titleBlock d d t := by
    intro t m hm hm1 hm2 hmem
    cases hsec : secIndex d.sections t with
    | none =>
      rw [titleBlock_self_none hsec] at hmem
      exact absurd hmem (List.not_mem_nil m)
    | some s =>
      by_cases hb : s.type = "bullets" ∨ s.type = "education"
      · rw [titleBlock_self_bullets hsec hb] at hmem
        simp only [List.mem_cons, List.not_mem_nil, or_false] at hmem
        rcases hmem with h | h | h
        · exact not_dash_eq_titleLine hm _ h
        · exact hm1 h
        · rw [h] at hm; exact absurd hm (by decide)
      · by_cases hcc : s.type = "core_competencies"
        · rw [titleBlock_self_cc hsec hcc] at hmem
          simp only [List.mem_cons, List.not_mem_nil, or_false] at hmem
          rcases hmem with h | h | h
          · exact not_dash_eq_titleLine hm _ h
          · exact hm1 h
          · rw [h] at hm; exact absurd hm (by decide)
        · by_cases hexp : s.type = "experience"
          · rw [titleBlock_self_exp hsec hexp] at hmem
            simp only [List.mem_cons] at hmem
            rcases hmem with h | hmem
            · exact not_dash_eq_titleLine hm _ h
            rcases List.mem_append.mp hmem with hflat | h
            · obtain ⟨k, hk, hmk⟩ := List.mem_flatMap.mp hflat
              have hsome : (dictLast (expIndex d) k).isSome = true := by
                apply dictLast_isSome_of_mem_keys
                rcases mem_sortedKeyUnion.mp hk with h' | h' <;> exact h'
              rw [jobBlock_self _ _ hsome] at hmk
              simp only [List.mem_cons, List.not_mem_nil, or_false] at hmk
              rcases hmk with h | h | h
              · exact not_dash_eq_jobHeader hm _ h
              · exact hm1 h
              · rw [h] at hm; exact absurd hm (by decide)
            · simp only [List.mem_singleton] at h
              rw [h] at hm; exact absurd hm (by decide)
          · rw [titleBlock_self_other hsec (fun hh => hb (Or.inl hh))
              (fun hh => hb (Or.inr hh)) hcc hexp] at hmem
            simp only [List.mem_cons, List.not_mem_nil, or_false] at hmem
            rcases hmem with h | h | h
            · exact not_dash_eq_titleLine hm _ h
            · exact hm2 h
            · rw [h] at hm; exact absurd hm (by decide)
  refine ⟨fun t => ⟨?_, ?_, ?_, ?_⟩, ?_, ?_, ?_⟩
  · exact hmarkers t _ (by decide) (by decide) (by decide)
  · exact hmarkers t _ (by decide) (by decide) (by decide)
  · exact hmarkers t _ (by decide) (by decide) (by decide)
  · exact hmarkers t _ (by decide) (by decide) (by decide)
  · intro t s hsec htype
    rcases htype with h | h | h
    · rw [titleBlock_self_bullets hsec (Or.inl h)]; simp
    · rw [titleBlock_self_bullets hsec (Or.inr h)]; simp
    · rw [titleBlock_self_cc hsec h]; simp
  · intro k hk
    exact jobBlock_self _ _ hk
  · intro t s hsec h1 h2 h3 h4
    rw [titleBlock_self_other hsec h1 h2 h3 h4]
    simp

/-- Witness for `self_diff_reports_no_change` at a concrete document. -/
theorem self_diff_reports_no_change_witness :
    "- No change" ∈
      titleBlock ⟨"J", ⟨"", "", ""⟩, [⟨"Summary", "bullets", ["x"], [], [], []⟩]⟩
        ⟨"J", ⟨"", "", ""⟩, [⟨"Summary", "bullets", ["x"], [], [], []⟩]⟩ "summary" ∧
    "- ✅ Added section" ∉
      titleBlock ⟨"J", ⟨"", "", ""⟩, [⟨"Summary", "bullets", ["x"], [], [], []⟩]⟩
        ⟨"J", ⟨"", "", ""⟩, [⟨"Summary", "bullets", ["x"], [], [], []⟩]⟩ "summary" :=
  ⟨(self_diff_reports_no_change ⟨"J", ⟨"", "", ""⟩, [⟨"Summary", "bullets", ["x"], [], [], []⟩]⟩).2.1
      "summary" ⟨"Summary", "bullets", ["x"], [], [], []⟩ (by decide) (Or.inl rfl),
   ((self_diff_reports_no_change ⟨"J", ⟨"", "", ""⟩, [⟨"Summary", "bullets", ["x"], [], [], []⟩]⟩).1
      "summary").1⟩

/-! ### Claim C5 -/

theorem filter_ne_nil_of_exists {α : Type} [DecidableEq α] {l m : List α}
    (h : ∃ x ∈ l, x ∉ m) : l.filter (fun x => decide (x ∉ m)) ≠ [] := by
  obtain ⟨x, hx, hnm⟩ := h
  intro hnil
  have : x ∈ l.filter (fun x => decide (x ∉ m)) := List.mem_filter.mpr ⟨hx, by simpa⟩
  rw [hnil] at this
  exact absurd this (List.not_mem_nil x)

theorem infix_flatMap_of_mem {α β : Type} (f : α → List β) {l : List α} {a : α}
    (h : a ∈ l) : f a <:+: l.flatMap f := by
  induction l with
  | nil => cases h
  | cons x xs ih =>
    rcases List.mem_cons.mp h with rfl | h'
    · exact ⟨[], xs.flatMap f, by simp [List.flatMap_cons]⟩
    · exact (ih h').trans ⟨f x, [], by simp [List.flatMap_cons]⟩

/-- The shape of a title's report when the tailored section under that title
has type `experience` (diff.py lines 101-147): one type-change line at most,
then the job blocks of the sorted key union, then a blank line. -/
theorem titleBlock_exp_shape (b t : Document) (ti : String) (sb sa : Sec)
    (hsb : secIndex b.sections ti = some sb) (hsa : secIndex t.sections ti = some sa)
    (hexp : sa.type = "experience") :
    titleBlock b t ti =
      ("## " ++ pyStrip sa.title) ::
        ((if sb.type ≠ sa.type then
            ["- Type changed: `" ++ sb.type ++ "` → `" ++ sa.type ++ "`"] else []) ++
         ((sortedKeyUnion ((expIndex b).map Prod.fst) ((expIndex t).map Prod.fst)).flatMap
            (jobBlock (expIndex b) (expIndex t)) ++ [""])) := by
  simp only [titleBlock, hsb, hsa]
  rw [hexp]
  simp

/-- The changed-job shape of a job block when the key is on both sides and a
difference exists (diff.py lines 135-147). -/
theorem jobBlock_changed (bidx aidx : List ((String × String × String) × Job))
    (k : String × String × String) (jb ja : Job)
    (hb : dictLast bidx k = some jb) (ha : dictLast aidx k = some ja)
    (hcond : ¬(ja.bullets.filter (fun x => decide (x ∉ jb.bullets)) = [] ∧
               jb.bullets.filter (fun x => decide (x ∉ ja.bullets)) = [] ∧
               pyStrip jb.tech_stack = pyStrip ja.tech_stack)) :
    jobBlock bidx aidx k =
      jobHeader k ::
        ((if ja.bullets.filter (fun x => decide (x ∉ jb.bullets)) ≠ [] then
            "**Added bullets**" ::
              (ja.bullets.filter (fun x => decide (x ∉ jb.bullets))).map (fun x => "- " ++ x)
          else []) ++
         (if jb.bullets.filter (fun x => decide (x ∉ ja.bullets)) ≠ [] then
            "**Removed bullets**" ::
              (jb.bullets.filter (fun x => decide (x ∉ ja.bullets))).map (fun x => "- " ++ x)
          else []) ++
         (if pyStrip jb.tech_stack ≠ pyStrip ja.tech_stack then
            ["**Tech stack**: `" ++ pyStrip jb.tech_stack ++ "` → `" ++
              pyStrip ja.tech_stack ++ "`"]
          else [])) ++ [""] := by
  simp only [jobBlock, hb, ha]
  rw [if_neg hcond]

/-- C5: a job key present (after trimming) in both documents' experience
indexes is reported as ONE changed job block: the key occurs exactly once in
the iteration order, the block is the in-place change report (bullet
set-diff plus tech-stack change), it is neither the added-job nor the
removed-job block, and it occurs inside the matched experience section's
report. -/
theorem job_identity_single_changed_block
    (base tailored : Document) (k : String × String × String) (jb ja : Job)
    (hb : dictLast (expIndex base) k = some jb)
    (ha : dictLast (expIndex tailored) k = some ja)
    (hdiff : (∃ x ∈ ja.bullets, x ∉ jb.bullets) ∨ (∃ x ∈ jb.bullets, x ∉ ja.bullets) ∨
      pyStrip jb.tech_stack ≠ pyStrip ja.tech_stack) :
    (k ∈ sortedKeyUnion ((expIndex base).map Prod.fst) ((expIndex tailored).map Prod.fst) ∧
      (sortedKeyUnion ((expIndex base).map Prod.fst)
        ((expIndex tailored).map Prod.fst)).Nodup) ∧
    jobBlock (expIndex base) (expIndex tailored) k =
      jobHeader k ::
        ((if ja.bullets.filter (fun x => decide (x ∉ jb.bullets)) ≠ [] then
            "**Added bullets**" ::
              (ja.bullets.filter (fun x => decide (x ∉ jb.bullets))).map (fun x => "- " ++ x)
          else []) ++
         (if jb.bullets.filter (fun x => decide (x ∉ ja.bullets)) ≠ [] then
            "**Removed bullets**" ::
              (jb.bullets.filter (fun x => decide (x ∉ ja.bullets))).map (fun x => "- " ++ x)
          else []) ++
         (if pyStrip jb.tech_stack ≠ pyStrip ja.tech_stack then
            ["**Tech stack**: `" ++ pyStrip jb.tech_stack ++ "` → `" ++
              pyStrip ja.tech_stack ++ "`"]
          else [])) ++ [""] ∧
    jobBlock (expIndex base) (expIndex tailored) k ≠
      [jobHeader k, "- ✅ Added job block", ""] ∧
    jobBlock (expIndex base) (expIndex tailored) k ≠
      [jobHeader k, "- ❌ Removed job block", ""] ∧
    (∀ (ti : String) (sb sa : Sec),
      secIndex base.sections ti = some sb → secIndex tailored.sections ti = some sa →
      sa.type = "experience" →
      jobBlock (expIndex base) (expIndex tailored) k <:+: titleBlock base tailored ti) := by
  have hcond : ¬(ja.bullets.filter (fun x => decide (x ∉ jb.bullets)) = [] ∧
      jb.bullets.filter (fun x => decide (x ∉ ja.bullets)) = [] ∧
      pyStrip jb.tech_stack = pyStrip ja.tech_stack) := by
    rcases hdiff with h | h | h
    · exact fun hc => filter_ne_nil_of_exists h hc.1
    · exact fun hc => filter_ne_nil_of_exists h hc.2.1
    · exact fun hc => h hc.2.2
  have hshape := jobBlock_changed _ _ k jb ja hb ha hcond
  have hkmem : k ∈ sortedKeyUnion ((expIndex base).map Prod.fst)
      ((expIndex tailored).map Prod.fst) :=
    mem_sortedKeyUnion.mpr (Or.inl (dictLast_mem_keys hb))
  have hstar : ∃ w ws,
      ((if ja.bullets.filter (fun x => decide (x ∉ jb.bullets)) ≠ [] then
          "**Added bullets**" ::
            (ja.bullets.filter (fun x => decide (x ∉ jb.bullets))).map (fun x => "- " ++ x)
        else []) ++
       (if jb.bullets.filter (fun x => decide (x ∉ ja.bullets)) ≠ [] then
          "**Removed bullets**" ::
            (jb.bullets.filter (fun x => decide (x ∉ ja.bullets))).map (fun x => "- " ++ x)
        else []) ++
       (if pyStrip jb.tech_stack ≠ pyStrip ja.tech_stack then
          ["**Tech stack**: `" ++ pyStrip jb.tech_stack ++ "` → `" ++
            pyStrip ja.tech_stack ++ "`"]
        else [])) = w :: ws ∧ w.data.head? = some '*' := by
    by_cases hA : ja.bullets.filter (fun x => decide (x ∉ jb.bullets)) = []
    · by_cases hB : jb.bullets.filter (fun x => decide (x ∉ ja.bullets)) = []
      · have hC : pyStrip jb.tech_stack ≠ pyStrip ja.tech_stack := by
          intro hc
          exact hcond ⟨hA, hB, hc⟩
        refine ⟨"**Tech stack**: `" ++ pyStrip jb.tech_stack ++ "` → `" ++
          pyStrip ja.tech_stack ++ "`", [], ?_, rfl⟩
        rw [if_neg (by simpa using hA), if_neg (by simpa using hB), if_pos hC]
        rfl
      · refine ⟨"**Removed bullets**",
          (jb.bullets.filter (fun x => decide (x ∉ ja.bullets))).map (fun x => "- " ++ x) ++
          (if pyStrip jb.tech_stack ≠ pyStrip ja.tech_stack then
            ["**Tech stack**: `" ++ pyStrip jb.tech_stack ++ "` → `" ++
              pyStrip ja.tech_stack ++ "`"] else []), ?_, rfl⟩
        rw [if_neg (by simpa using hA), if_pos hB]
        simp
    · refine ⟨"**Added bullets**",
        (ja.bullets.filter (fun x => decide (x ∉ jb.bullets))).map (fun x => "- " ++ x) ++
        ((if jb.bullets.filter (fun x => decide (x ∉ ja.bullets)) ≠ [] then
            "**Removed bullets**" ::
              (jb.bullets.filter (fun x => decide (x ∉ ja.bullets))).map (fun x => "- " ++ x)
          else []) ++
         (if pyStrip jb.tech_stack ≠ pyStrip ja.tech_stack then
            ["**Tech stack**: `" ++ pyStrip jb.tech_stack ++ "` → `" ++
              pyStrip ja.tech_stack ++ "`"] else [])), ?_, rfl⟩
      rw [if_pos hA]
      simp
  obtain ⟨w, ws, hws, hwstar⟩ := hstar
  have hlist : jobBlock (expIndex base) (expIndex tailored) k =
      jobHeader k :: w :: (ws ++ [""]) := by
    rw [hshape, hws]
    rfl
  refine ⟨?_, hshape, ?_, ?_, ?_⟩
  · exact ⟨hkmem, sortedKeyUnion_nodup _ _⟩
  · intro heq
    rw [hlist] at heq
    have hw : w = "- ✅ Added job block" := by
      have := congrArg (fun l => List.get? l 1) heq
      simpa using this
    rw [hw] at hwstar
    exact absurd hwstar (by decide)
  · intro heq
    rw [hlist] at heq
    have hw : w = "- ❌ Removed job block" := by
      have := congrArg (fun l => List.get? l 1) heq
      simpa using this
    rw [hw] at hwstar
    exact absurd hwstar (by decide)
  · intro ti sb sa hsb hsa hexp
    have h1 : jobBlock (expIndex base) (expIndex tailored) k <:+:
        (sortedKeyUnion ((expIndex base).map Prod.fst)
          ((expIndex tailored).map Prod.fst)).flatMap
          (jobBlock (expIndex base) (expIndex tailored)) :=
      infix_flatMap_of_mem _ hkmem
    refine h1.trans ?_
    rw [titleBlock_exp_shape base tailored ti sb sa hsb hsa hexp]
    exact ⟨("## " ++ pyStrip sa.title) ::
        (if sb.type ≠ sa.type then
          ["- Type changed: `" ++ sb.type ++ "` → `" ++ sa.type ++ "`"] else []),
      [""], by simp⟩

def c5basejob : Job := ⟨"Engineer", "Acme", "", "2020-2022", ["Built X"], "Go"⟩

def c5tailjob : Job := ⟨"Engineer", "Acme", "", "2020-2022", ["Built X", "Shipped Y"], "Go, Rust"⟩

def c5base : Document :=
  ⟨"J", ⟨"", "", ""⟩, [⟨"Experience", "experience", [], [], [c5basejob], []⟩]⟩

def c5tail : Document :=
  ⟨"J", ⟨"", "", ""⟩, [⟨"Experience", "experience", [], [], [c5tailjob], []⟩]⟩

/-- Witness for `job_identity_single_changed_block` at the spec's scenario. -/
theorem job_identity_single_changed_block_witness :
    ("Engineer", "Acme", "2020-2022") ∈
      (sortedKeyUnion ((expIndex c5base).map Prod.fst) ((expIndex c5tail).map Prod.fst)) ∧
    jobBlock (expIndex c5base) (expIndex c5tail) ("Engineer", "Acme", "2020-2022") <:+:
      titleBlock c5base c5tail "experience" :=
  ⟨(job_identity_single_changed_block c5base c5tail ("Engineer", "Acme", "2020-2022")
      c5basejob c5tailjob (by decide) (by decide)
      (Or.inl ⟨"Shipped Y", by decide, by decide⟩)).1.1,
   (job_identity_single_changed_block c5base c5tail ("Engineer", "Acme", "2020-2022")
      c5basejob c5tailjob (by decide) (by decide)
      (Or.inl ⟨"Shipped Y", by decide, by decide⟩)).2.2.2.2
      "experience" ⟨"Experience", "experience", [], [], [c5basejob], []⟩
      ⟨"Experience", "experience", [], [], [c5tailjob], []⟩
      (by decide) (by decide) rfl⟩

/-! ### Claim C9 -/

/-- C9: the diff is a pure function of its two arguments (so two invocations
on the same pair give the same string); its report begins with the fixed
header and then one block per title, in strictly ascending order of the
lowercased trimmed titles; job keys are iterated in ascending lexicographic
order without duplicates, and an experience section's block is exactly the
job blocks of that sorted key sequence. -/
theorem diff_deterministic_sorted (b t : Document) :
    makeDiffMarkdown b t = pyStrip (joinSep "\n" (diffLines b t)) ++ "\n" ∧
    diffLines b t =
      ["# Resume Diff", "", "## High-level",
       "- Name: `" ++ b.name ++ "` → `" ++ t.name ++ "`", ""] ++
      (allTitles b t).flatMap (titleBlock b t) ∧
    (allTitles b t).Sorted (· < ·) ∧
    (∀ xs ys : List (String × String × String),
      (sortedKeyUnion xs ys).Sorted keyLe ∧ (sortedKeyUnion xs ys).Nodup) ∧
    (∀ (ti : String) (sb sa : Sec),
      secIndex b.sections ti = some sb → secIndex t.sections ti = some sa →
      sa.type = "experience" →
      titleBlock b t ti =
        ("## " ++ pyStrip sa.title) ::
          ((if sb.type ≠ sa.type then
              ["- Type changed: `" ++ sb.type ++ "` → `" ++ sa.type ++ "`"] else []) ++
           ((sortedKeyUnion ((expIndex b).map Prod.fst) ((expIndex t).map Prod.fst)).flatMap
              (jobBlock (expIndex b) (expIndex t)) ++ [""]))) := by
  refine ⟨rfl, rfl, ?_, ?_, ?_⟩
  · have hle : (allTitles b t).Sorted (· ≤ ·) := List.sorted_insertionSort _ _
    have hnd : (allTitles b t).Nodup :=
      ((List.perm_insertionSort (· ≤ ·) _).nodup_iff).mpr (List.nodup_dedup _)
    exact hle.lt_of_le hnd
  · exact fun xs ys => ⟨sortedKeyUnion_sorted xs ys, sortedKeyUnion_nodup xs ys⟩
  · exact fun ti sb sa hsb hsa hexp => titleBlock_exp_shape b t ti sb sa hsb hsa hexp

def c9basejob : Job := ⟨"Dev", "Beta", "", "2021", ["A"], "Go"⟩

def c9tailjob : Job := ⟨"Dev", "Beta", "", "2021", ["B"], "Go"⟩

def c9base : Document :=
  ⟨"N", ⟨"", "", ""⟩, [⟨"Experience", "experience", [], [], [c9basejob], []⟩]⟩

def c9tail : Document :=
  ⟨"N", ⟨"", "", ""⟩, [⟨"Experience", "experience", [], [], [c9tailjob], []⟩]⟩

/-- Witness for `diff_deterministic_sorted` at a concrete pair. -/
theorem diff_deterministic_sorted_witness :
    titleBlock c9base c9tail "experience" =
      ["## Experience", "### Dev - Beta [2021]", "**Added bullets**", "- B",
       "**Removed bullets**", "- A", "", ""] :=
  ((diff_deterministic_sorted c9base c9tail).2.2.2.2 "experience"
      ⟨"Experience", "experience", [], [], [c9basejob], []⟩
      ⟨"Experience", "experience", [], [], [c9tailjob], []⟩
      (by decide) (by decide) rfl).trans (by decide)

theorem contactStep_location (c : Contact) (p : String) :
    (contactStep c p).location = c.location := by
  unfold contactStep
  by_cases ha : pyIn "@" p <;> by_cases hb : pyIn "linkedin" (pyLower p) <;> simp [ha, hb]

theorem contactStep_email (c : Contact) (p : String) :
    (contactStep c p).email = if pyIn "@" p then p else c.email := by
  unfold contactStep
  by_cases ha : pyIn "@" p <;> by_cases hb : pyIn "linkedin" (pyLower p) <;> simp [ha, hb]

theorem contactStep_linkedin (c : Contact) (p : String) :
    (contactStep c p).linkedin =
      if pyIn "linkedin" (pyLower p) then
        (if strStarts p "http" then p
         else "https://" ++ String.mk (p.data.dropWhile (· = '/')))
      else c.linkedin := by
  unfold contactStep
  by_cases ha : pyIn "@" p <;> by_cases hb : pyIn "linkedin" (pyLower p) <;> simp [ha, hb]

theorem contactFold_location :
    ∀ (l : List String) (c : Contact), (l.foldl contactStep c).location = c.location := by
  intro l
  induction l with
  | nil => intro c; rfl
  | cons p rest ih => intro c; rw [List.foldl_cons, ih, contactStep_location]

theorem contactFold_email :
    ∀ (l : List String) (c : Contact),
      (l.foldl contactStep c).email =
        match (l.filter (fun p => pyIn "@" p)).getLast? with
        | some p => p
        | none => c.email := by
  intro l
  induction l with
  | nil => intro c; rfl
  | cons p rest ih =>
    intro c
    rw [List.foldl_cons, ih]
    by_cases hp : pyIn "@" p = true
    · rw [List.filter_cons, if_pos hp]
      cases hrest : rest.filter (fun q => pyIn "@" q) with
      | nil => simp [contactStep_email, hp]
      | cons x xs =>
        obtain ⟨v, hv⟩ :=
          Option.isSome_iff_exists.mp (List.getLast?_isSome.mpr (List.cons_ne_nil x xs))
        rw [List.getLast?_cons_cons, hv]
    · rw [List.filter_cons, if_neg hp, contactStep_email, if_neg hp]

theorem contactFold_linkedin :
    ∀ (l : List String) (c : Contact),
      (l.foldl contactStep c).linkedin =
        match (l.filter (fun p => pyIn "linkedin" (pyLower p))).getLast? with
        | some p =>
          if strStarts p "http" then p
          else "https://" ++ String.mk (p.data.dropWhile (· = '/'))
        | none => c.linkedin := by
  intro l
  induction l with
  | nil => intro c; rfl
  | cons p rest ih =>
    intro c
    rw [List.foldl_cons, ih]
    by_cases hp : pyIn "linkedin" (pyLower p) = true
    · rw [List.filter_cons, if_pos hp]
      cases hrest : rest.filter (fun q => pyIn "linkedin" (pyLower q)) with
      | nil => simp [contactStep_linkedin, hp]
      | cons x xs =>
        obtain ⟨v, hv⟩ :=
          Option.isSome_iff_exists.mp (List.getLast?_isSome.mpr (List.cons_ne_nil x xs))
        rw [List.getLast?_cons_cons, hv]
    · rw [List.filter_cons, if_neg hp, contactStep_linkedin, if_neg hp]

/-- Any string of the form `https://` followed by anything starts with
`http`. -/
theorem strStarts_https (zs : List Char) :
    strStarts ("https://" ++ String.mk zs) "http" = true := rfl

/-- C6 amended: `parse_header` assigns the first pipe-delimited field to the
location; among the fields AFTER the first, the last one containing `@`
becomes the email (empty if there is none — in particular when only the
first field contains `@`), and the last one containing "linkedin"
(case-insensitively) becomes the linkedin handle, prefixed with `https://`
when it does not start with `http` (so the stored handle always starts with
`http` when present). -/
theorem header_contact_assignment (ln : String) :
    ((contactOfLine ln).location = (((splitChar '|' ln).map pyStrip).headD "") ∧
     (contactOfLine ln).email =
       (match (((splitChar '|' ln).map pyStrip).tail.filter
                 (fun p => pyIn "@" p)).getLast? with
        | some p => p
        | none => "") ∧
     (contactOfLine ln).linkedin =
       (match (((splitChar '|' ln).map pyStrip).tail.filter
                 (fun p => pyIn "linkedin" (pyLower p))).getLast? with
        | some p =>
          if strStarts p "http" then p
          else "https://" ++ String.mk (p.data.dropWhile (· = '/'))
        | none => "") ∧
     ((contactOfLine ln).linkedin = "" ∨
        strStarts (contactOfLine ln).linkedin "http" = true)) ∧
    ∀ (l0 : String) (rest : List String) (i : Nat),
      findContactIdx (l0 :: rest) = some i →
      parseHeader (l0 :: rest) =
        some (pyTitle (pyStrip l0), contactOfLine (((l0 :: rest).get? i).getD ""), i + 1) := by
  have hloc : (contactOfLine ln).location = (((splitChar '|' ln).map pyStrip).headD "") := by
    unfold contactOfLine
    rw [contactFold_location]
  have hem := contactFold_email (((splitChar '|' ln).map pyStrip).tail)
    { location := ((splitChar '|' ln).map pyStrip).headD "" }
  have hlk := contactFold_linkedin (((splitChar '|' ln).map pyStrip).tail)
    { location := ((splitChar '|' ln).map pyStrip).headD "" }
  have hlk' : (contactOfLine ln).linkedin =
      (match (((splitChar '|' ln).map pyStrip).tail.filter
                (fun p => pyIn "linkedin" (pyLower p))).getLast? with
       | some p =>
         if strStarts p "http" then p
         else "https://" ++ String.mk (p.data.dropWhile (· = '/'))
       | none => "") := hlk
  refine ⟨⟨hloc, hem, hlk, ?_⟩, ?_⟩
  · rw [hlk']
    cases hlast : (((splitChar '|' ln).map pyStrip).tail.filter
        (fun p => pyIn "linkedin" (pyLower p))).getLast? with
    | none => exact Or.inl rfl
    | some p =>
      refine Or.inr ?_
      show strStarts (if strStarts p "http" = true then p
          else "https://" ++ String.mk (p.data.dropWhile (· = '/'))) "http" = true
      by_cases hh : strStarts p "http" = true
      · rw [if_pos hh]; exact hh
      · rw [if_neg hh]; exact strStarts_https _
  · intro l0 rest i hfind
    simp [parseHeader, hfind]

/-- Witness for `header_contact_assignment` at a concrete contact line. -/
theorem header_contact_assignment_witness :
    (contactOfLine "Remote | jane@x.com | linkedin.com/in/jane").email = "jane@x.com" ∧
    parseHeader ["Jane", "Remote | jane@x.com"] =
      some ("Jane", contactOfLine "Remote | jane@x.com", 2) := by
  refine ⟨?_, ?_⟩
  · rw [(header_contact_assignment "Remote | jane@x.com | linkedin.com/in/jane").1.2.1]
    decide
  · have h := (header_contact_assignment "").2 "Jane" ["Remote | jane@x.com"] 1 (by decide)
    simpa using h

/-! ### Claim C7: amended theorem -/

theorem sectionScan_nil_of_no_title :
    ∀ (l : List (Nat × String)),
      (∀ q ∈ l, SECTION_TITLES.contains (pyUpper (pyStrip q.2)) = false) →
      l.foldl sectionScanStep [] = [] := by
  intro l
  induction l with
  | nil => intro _; rfl
  | cons q rest ih =>
    intro h
    have hq := h q (List.mem_cons_self q rest)
    have hstep : sectionScanStep [] q = [] := by
      simp only [sectionScanStep]
      rw [hq]
      rfl
    rw [List.foldl_cons, hstep]
    exact ih (fun q' hq' => h q' (List.mem_cons_of_mem q hq'))

theorem findSectionIndices_nil_of_no_title (lines : List String)
    (h : ∀ ln ∈ lines, SECTION_TITLES.contains (pyUpper (pyStrip ln)) = false) :
    findSectionIndices lines = [] := by
  unfold findSectionIndices
  apply sectionScan_nil_of_no_title
  intro q hq
  have : lines[q.1]? = some q.2 := List.mem_enum_iff_getElem?.mp hq
  exact h q.2 (List.getElem?_mem this)

theorem toBullets_eq_filter (l : List String) :
    toBullets l = (l.map stripGlyphTrim).filter (fun b => b != "") := by
  induction l with
  | nil => rfl
  | cons a rest ih =>
    simp only [toBullets, List.filterMap_cons, List.map_cons, List.filter_cons] at *
    by_cases h : stripGlyphTrim a = ""
    · simp [h, ih]
    · simp [h, ih]

/-- C7 amended: when the post-header body contains no line matching a known
section title, the reverse parser outputs exactly one section, of type
`bullets` titled "Content", whose items are the post-header lines with a
leading bullet glyph stripped — EXCEPT that a line reduced to the empty
string by glyph stripping is dropped rather than kept as an empty item. -/
theorem fallback_single_content_section (lines : List String) (nm : String) (ct : Contact)
    (hEnd : Nat) (hparse : parseHeader lines = some (nm, ct, hEnd))
    (hno : ∀ ln ∈ lines.drop hEnd, SECTION_TITLES.contains (pyUpper (pyStrip ln)) = false) :
    reverseParse lines =
      some ⟨nm, ct, [⟨"Content", "bullets", toBullets (lines.drop hEnd), [], [], []⟩]⟩ ∧
    toBullets (lines.drop hEnd) =
      ((lines.drop hEnd).map stripGlyphTrim).filter (fun b => b != "") := by
  constructor
  · unfold reverseParse
    rw [hparse, Option.map_some']
    have hidx : findSectionIndices (lines.drop hEnd) = [] :=
      findSectionIndices_nil_of_no_title _ hno
    simp [hidx]
  · exact toBullets_eq_filter _

/-- Witness for `fallback_single_content_section` at a concrete input. -/
theorem fallback_single_content_witness :
    reverseParse ["Jane", "- a", "b"] =
      some ⟨"Jane", ⟨"", "", ""⟩, [⟨"Content", "bullets", toBullets ["- a", "b"], [], [], []⟩]⟩ :=
  (fallback_single_content_section ["Jane", "- a", "b"] "Jane" ⟨"", "", ""⟩ 1
    (by decide) (by decide)).1

/-- C10 counterexample: with two sections whose titles agree up to case and
whitespace, the earlier one is NOT silently ignored when it has type
`experience`: `_index_experience` scans every experience section of the
document, so the earlier duplicate's job still shows up (as a removed job
block) and deleting the earlier duplicate changes the diff. -/
theorem earlier_experience_duplicate_not_ignored :
    normTitle c10dup = normTitle c10last ∧
    diffLines c10base c10tail ≠ diffLines c10baseNoDup c10tail ∧
    "- ❌ Removed job block" ∈ diffLines c10base c10tail := by
  decide

/-! ### Claim C10: amended theorem -/

theorem secIndex_skip_dup (pre rest : List Sec) (s₁ s₂ : Sec)
    (hmem : s₂ ∈ rest) (h : normTitle s₁ = normTitle s₂) (t : String) :
    secIndex (pre ++ s₁ :: rest) t = secIndex (pre ++ rest) t := by
  unfold secIndex
  rw [List.filter_append, List.filter_append, List.filter_cons]
  by_cases ht : normTitle s₁ = t
  · rw [if_pos (by simpa using ht)]
    have hf : s₂ ∈ rest.filter (fun s => normTitle s == t) :=
      List.mem_filter.mpr ⟨hmem, by rw [← h, ht]; simp⟩
    obtain ⟨x, xs, hxs⟩ : ∃ x xs, rest.filter (fun s => normTitle s == t) = x :: xs := by
      cases hc : rest.filter (fun s => normTitle s == t) with
      | nil => rw [hc] at hf; exact absurd hf (List.not_mem_nil s₂)
      | cons x xs => exact ⟨x, xs, rfl⟩
    rw [hxs,
      List.getLast?_append_of_ne_nil _ (List.cons_ne_nil s₁ (x :: xs)),
      List.getLast?_cons_cons,
      List.getLast?_append_of_ne_nil _ (List.cons_ne_nil x xs)]
  · rw [if_neg (by simpa using ht)]

theorem expIndex_skip_nonexp (nm : String) (ct : Contact) (pre rest : List Sec)
    (s₁ : Sec) (h : s₁.type ≠ "experience") :
    expIndex ⟨nm, ct, pre ++ s₁ :: rest⟩ = expIndex ⟨nm, ct, pre ++ rest⟩ := by
  simp only [expIndex, List.foldl_append, List.foldl_cons]
  rw [if_neg (by simpa using h)]

theorem insertionSort_dedup_eq_of_toFinset {l₁ l₂ : List String}
    (h : l₁.toFinset = l₂.toFinset) :
    List.insertionSort (· ≤ ·) l₁.dedup = List.insertionSort (· ≤ ·) l₂.dedup := by
  have hd : l₁.dedup.toFinset = l₂.dedup.toFinset := by
    ext x
    simp only [List.mem_toFinset, List.mem_dedup]
    constructor
    · intro hx
      have hx2 := List.mem_toFinset.mpr hx
      rw [h] at hx2
      exact List.mem_toFinset.mp hx2
    · intro hx
      have hx2 := List.mem_toFinset.mpr hx
      rw [← h] at hx2
      exact List.mem_toFinset.mp hx2
  have hperm : List.Perm l₁.dedup l₂.dedup :=
    List.perm_of_nodup_nodup_toFinset_eq (List.nodup_dedup _) (List.nodup_dedup _) hd
  exact List.eq_of_perm_of_sorted
    (((List.perm_insertionSort _ _).trans hperm).trans (List.perm_insertionSort _ _).symm)
    (List.sorted_insertionSort _ _) (List.sorted_insertionSort _ _)

theorem titleBlock_congr_base (b₁ b₂ other : Document)
    (hsec : ∀ ti, secIndex b₁.sections ti = secIndex b₂.sections ti)
    (hexp : expIndex b₁ = expIndex b₂) (ti : String) :
    titleBlock b₁ other ti = titleBlock b₂ other ti := by
  simp only [titleBlock]
  rw [hsec ti, hexp]

theorem titleBlock_congr_tail (other t₁ t₂ : Document)
    (hsec : ∀ ti, secIndex t₁.sections ti = secIndex t₂.sections ti)
    (hexp : expIndex t₁ = expIndex t₂) (ti : String) :
    titleBlock other t₁ ti = titleBlock other t₂ ti := by
  simp only [titleBlock]
  rw [hsec ti, hexp]

/-- C10 amended: sections are indexed by lowercased trimmed title with later
sections overwriting earlier ones (first conjunct: the last section with a
given normalized title is the one the index returns); consequently an
earlier same-titled duplicate does not participate in the diff — PROVIDED
its type is not `experience`: deleting such a duplicate (from either the
base or the tailored document) leaves the whole report unchanged.  (An
earlier duplicate of type `experience` still contributes its jobs through
`_index_experience`, which scans every experience section; see the
counterexample.) -/
theorem duplicate_title_last_wins :
    (∀ (secs : List Sec) (s : Sec), secIndex (secs ++ [s]) (normTitle s) = some s) ∧
    (∀ (nm : String) (ct : Contact) (pre mid post : List Sec) (s₁ s₂ : Sec)
        (other : Document),
      normTitle s₁ = normTitle s₂ → s₁.type ≠ "experience" →
      diffLines ⟨nm, ct, pre ++ s₁ :: (mid ++ s₂ :: post)⟩ other =
        diffLines ⟨nm, ct, pre ++ (mid ++ s₂ :: post)⟩ other ∧
      diffLines other ⟨nm, ct, pre ++ s₁ :: (mid ++ s₂ :: post)⟩ =
        diffLines other ⟨nm, ct, pre ++ (mid ++ s₂ :: post)⟩) := by
  constructor
  · intro secs s
    unfold secIndex
    rw [List.filter_append, List.filter_cons]
    rw [if_pos (by simp)]
    simp [List.getLast?_concat]
  · intro nm ct pre mid post s₁ s₂ other h htype
    have hmem : s₂ ∈ mid ++ s₂ :: post := List.mem_append_right mid (List.mem_cons_self s₂ post)
    have hsec : ∀ ti, secIndex (Document.mk nm ct (pre ++ s₁ :: (mid ++ s₂ :: post))).sections ti =
        secIndex (Document.mk nm ct (pre ++ (mid ++ s₂ :: post))).sections ti :=
      fun ti => secIndex_skip_dup pre (mid ++ s₂ :: post) s₁ s₂ hmem h ti
    have hexp : expIndex ⟨nm, ct, pre ++ s₁ :: (mid ++ s₂ :: post)⟩ =
        expIndex ⟨nm, ct, pre ++ (mid ++ s₂ :: post)⟩ :=
      expIndex_skip_nonexp nm ct pre (mid ++ s₂ :: post) s₁ htype
    have htfin :
        ((pre ++ s₁ :: (mid ++ s₂ :: post)).map normTitle).toFinset =
        ((pre ++ (mid ++ s₂ :: post)).map normTitle).toFinset := by
      ext x
      simp only [List.mem_toFinset]
      constructor
      · intro hx
        rcases List.mem_map.mp hx with ⟨s, hs, rfl⟩
        rcases List.mem_append.mp hs with hs | hs
        · exact List.mem_map_of_mem _ (List.mem_append_left _ hs)
        · rcases List.mem_cons.mp hs with rfl | hs
          · rw [h]
            exact List.mem_map_of_mem _ (List.mem_append_right _ hmem)
          · exact List.mem_map_of_mem _ (List.mem_append_right _ hs)
      · intro hx
        rcases List.mem_map.mp hx with ⟨s, hs, rfl⟩
        rcases List.mem_append.mp hs with hs | hs
        · exact List.mem_map_of_mem _ (List.mem_append_left _ hs)
        · exact List.mem_map_of_mem _ (List.mem_append_right _ (List.mem_cons_of_mem s₁ hs))
    constructor
    · have htitles : allTitles ⟨nm, ct, pre ++ s₁ :: (mid ++ s₂ :: post)⟩ other =
          allTitles ⟨nm, ct, pre ++ (mid ++ s₂ :: post)⟩ other := by
        unfold allTitles sortedTitleUnion
        apply insertionSort_dedup_eq_of_toFinset
        simp only [List.toFinset_append]
        rw [htfin]
      have hblocks : titleBlock ⟨nm, ct, pre ++ s₁ :: (mid ++ s₂ :: post)⟩ other =
          titleBlock ⟨nm, ct, pre ++ (mid ++ s₂ :: post)⟩ other :=
        funext (fun ti => titleBlock_congr_base _ _ other hsec hexp ti)
      simp only [diffLines, htitles, hblocks]
    · have htitles : allTitles other ⟨nm, ct, pre ++ s₁ :: (mid ++ s₂ :: post)⟩ =
          allTitles other ⟨nm, ct, pre ++ (mid ++ s₂ :: post)⟩ := by
        unfold allTitles sortedTitleUnion
        apply insertionSort_dedup_eq_of_toFinset
        simp only [List.toFinset_append]
        rw [htfin]
      have hblocks : titleBlock other ⟨nm, ct, pre ++ s₁ :: (mid ++ s₂ :: post)⟩ =
          titleBlock other ⟨nm, ct, pre ++ (mid ++ s₂ :: post)⟩ :=
        funext (fun ti => titleBlock_congr_tail other _ _ hsec hexp ti)
      simp only [diffLines, htitles, hblocks]

def c10wdup : Sec := ⟨"Summary", "bullets", ["old"], [], [], []⟩

def c10wlast : Sec := ⟨" summary ", "bullets", ["new"], [], [], []⟩

/-- Witness for `duplicate_title_last_wins` at concrete documents. -/
theorem duplicate_title_last_wins_witness :
    secIndex [c10wdup, c10wlast] (normTitle c10wlast) = some c10wlast ∧
    diffLines ⟨"X", ⟨"", "", ""⟩, [c10wdup, c10wlast]⟩ ⟨"X", ⟨"", "", ""⟩, []⟩ =
      diffLines ⟨"X", ⟨"", "", ""⟩, [c10wlast]⟩ ⟨"X", ⟨"", "", ""⟩, []⟩ :=
  ⟨duplicate_title_last_wins.1 [c10wdup] c10wlast,
   (duplicate_title_last_wins.2 "X" ⟨"", "", ""⟩ [] [] [] c10wdup c10wlast
      ⟨"X", ⟨"", "", ""⟩, []⟩ (by decide) (by decide)).1⟩

end ResumeTailor
